import Mathlib

/-
Verification development for the campus-network multicast experiment
(src/campus_net_experiment.py).

The program is embedded shallowly:

* A networkx undirected graph becomes a `Graph`: a finite set of nodes, a
  finite set of (orientation-carrying) edges, and the `graph["heuristic"]`
  metadata tag.  An undirected edge between u and v may be stored as
  (u, v) or as (v, u); every operation treats the two orientations alike,
  exactly as networkx does for `nx.Graph`.
* `remove_edges_from` / `remove_nodes_from` embed the mutating networkx
  calls made by `get_reachability`; mutation is made explicit by returning
  the modified graphs alongside the result (`get_reachability_st`).
* Python float division of two small integer cardinalities is idealised
  as division in ℚ; `ZeroDivisionError` (and the other exceptions the
  code can raise: `IndexError` from `trees[0]`, `ValueError` from
  `random.sample`, `IndexError` from `random.choice`) are embedded as
  `none` / an aborted run.
* Randomness is embedded as an explicit stream of per-trial draws: the
  Python PRNGs are deterministic functions of their seeds, so a fixed
  pair of seeds corresponds to a fixed stream.
-/

/-- A networkx-style undirected graph together with the
`graph["heuristic"]` metadata tag used by the experiment code. -/
structure Graph where
  nodes : Finset Nat
  edges : Finset (Nat × Nat)
  heuristic : String
deriving DecidableEq

/-- Embeds `topology.remove_edges_from(failed_links)`: every listed link is
removed, in whichever orientation it is stored; nodes are untouched. -/
def remove_edges_from (g : Graph) (failed_links : Finset (Nat × Nat)) : Graph :=
  { g with edges := g.edges.filter (fun e => e ∉ failed_links ∧ e.swap ∉ failed_links) }

/-- Embeds `topology.remove_nodes_from(failed_nodes)`: the nodes are removed
together with every incident edge, as networkx does. -/
def remove_nodes_from (g : Graph) (failed_nodes : Finset Nat) : Graph :=
  { g with
    nodes := g.nodes \ failed_nodes
    edges := g.edges.filter (fun e => e.1 ∉ failed_nodes ∧ e.2 ∉ failed_nodes) }

/-- u and v are joined by an edge of g, in either orientation. -/
def hasEdge (g : Graph) (u v : Nat) : Bool :=
  decide ((u, v) ∈ g.edges) || decide ((v, u) ∈ g.edges)

/-- Adjacency inside the graph: both endpoints are present and an edge joins
them.  (In networkx an edge can only exist between present nodes.) -/
def adj (g : Graph) (u v : Nat) : Bool :=
  decide (u ∈ g.nodes) && decide (v ∈ g.nodes) && hasEdge g u v

/-- One breadth-first expansion step: add every node adjacent to the current
reached set. -/
def reachStep (g : Graph) (s : Finset Nat) : Finset Nat :=
  s ∪ g.nodes.filter (fun v => ∃ u ∈ s, adj g u v = true)

/-- Iterated expansion with explicit fuel. -/
def reachIter (g : Graph) : Nat → Finset Nat → Finset Nat
  | 0, s => s
  | n + 1, s => reachIter g n (reachStep g s)

/-- Modelled from the spec: the set of nodes reachable from `server` via any
path in the graph, standing for
`set(nx.single_source_shortest_path(topology, server))` — networkx library
code that is not part of this repository.  When the server is not a node of
the graph (e.g. it was removed as a failed node) no node of the graph is
reachable from it, so the set is empty. -/
def single_source_reachable (g : Graph) (server : Nat) : Finset Nat :=
  if server ∈ g.nodes then reachIter g g.nodes.card {server} else ∅

/-- The pruning `get_reachability` performs on each candidate graph: failed
links are removed first, then failed nodes (the order used at lines 231-232
of src/campus_net_experiment.py). -/
def prune (g : Graph) (failed_links : Finset (Nat × Nat)) (failed_nodes : Finset Nat) : Graph :=
  remove_nodes_from (remove_edges_from g failed_links) failed_nodes

/-- The loop of `get_reachability`: prune each candidate graph in turn,
intersect its reachable set with the subscribers, and accumulate the union
in `all_subscribers_reachable` (the `acc` argument).  The mutated graphs are
returned as the second component, making the in-place mutation explicit. -/
def get_reachability_loop (failed_nodes : Finset Nat) (failed_links : Finset (Nat × Nat))
    (server : Nat) (subscribers : Finset Nat) :
    List Graph → Finset Nat → Finset Nat × List Graph
  | [], acc => (acc, [])
  | topology :: rest, acc =>
    let topology2 := remove_nodes_from (remove_edges_from topology failed_links) failed_nodes
    let nodes_reachable := single_source_reachable topology2 server
    let subscribers_reachable := subscribers ∩ nodes_reachable
    let out := get_reachability_loop failed_nodes failed_links server subscribers rest
      (acc ∪ subscribers_reachable)
    (out.1, topology2 :: out.2)

/-- Embeds `get_reachability` (lines 221-240): runs the loop over the
candidate graphs, then divides the size of the accumulated union by the
number of subscribers.  Python raises `ZeroDivisionError` when
`subscribers` is empty, embedded as `none`; the second component is the
list of (destructively pruned) candidate graphs. -/
def get_reachability_st (failed_nodes : Finset Nat) (failed_links : Finset (Nat × Nat))
    (server : Nat) (subscribers : Finset Nat) (topologies : List Graph) :
    Option ℚ × List Graph :=
  let out := get_reachability_loop failed_nodes failed_links server subscribers topologies ∅
  (if subscribers.card = 0 then none
   else some ((out.1.card : ℚ) / (subscribers.card : ℚ)), out.2)

/-- The value `get_reachability` returns (no mutation tracking). -/
def get_reachability (failed_nodes : Finset Nat) (failed_links : Finset (Nat × Nat))
    (server : Nat) (subscribers : Finset Nat) (topologies : List Graph) : Option ℚ :=
  (get_reachability_st failed_nodes failed_links server subscribers topologies).1

/-- The subscribers served according to the spec: those reachable from the
server in at least one candidate graph, after failures are removed. -/
def servedSubscribers (failed_nodes : Finset Nat) (failed_links : Finset (Nat × Nat))
    (server : Nat) (subscribers : Finset Nat) (topologies : List Graph) : Finset Nat :=
  subscribers.filter (fun s =>
    topologies.any (fun g =>
      decide (s ∈ single_source_reachable (prune g failed_links failed_nodes) server)))

/-- g is a subgraph of G: all its nodes are nodes of G, and each of its
edges is an edge of G in one of the two orientations. -/
def SubgraphOf (g G : Graph) : Prop :=
  g.nodes ⊆ G.nodes ∧ ∀ e ∈ g.edges, e ∈ G.edges ∨ e.swap ∈ G.edges

instance (g G : Graph) : Decidable (SubgraphOf g G) := by
  unfold SubgraphOf; infer_instance

/-- Assignment `d[k] = v` into a Python dict represented as an association
list: an existing binding of k is overwritten in place, otherwise the new
binding is appended. -/
def dictInsert (d : List (String × ℚ)) (k : String) (v : ℚ) : List (String × ℚ) :=
  if d.any (fun p => p.1 = k) then
    d.map (fun p => if p.1 = k then (k, v) else p)
  else d ++ [(k, v)]

/-- Embeds `run_experiment` (lines 184-219) with mutation made explicit.
A copy of the whole topology is tagged `"oracle"` and evaluated, then the
trees are evaluated; `trees[0].graph["heuristic"]` labels the second score
(an `IndexError`, embedded as `none`, when the heuristic produced zero
trees).  The returned triple is (result-or-exception, the driver topology
after the call, the tree list after the call): the topology is only copied,
so it comes back unchanged, while the trees come back destructively
pruned. -/
def run_experiment_st (topo : Graph) (failed_nodes : Finset Nat)
    (failed_links : Finset (Nat × Nat)) (server : Nat) (subscribers : Finset Nat)
    (trees : List Graph) : Option (List (String × ℚ)) × Graph × List Graph :=
  let topo_copy : Graph := { topo with heuristic := "oracle" }
  match (get_reachability_st failed_nodes failed_links server subscribers [topo_copy]).1 with
  | none => (none, topo, trees)
  | some res_oracle =>
    let out := get_reachability_st failed_nodes failed_links server subscribers trees
    match out.1 with
    | none => (none, topo, out.2)
    | some res_trees =>
      match out.2 with
      | [] => (none, topo, out.2)
      | t :: _ =>
        (some (dictInsert (dictInsert [] "oracle" res_oracle) t.heuristic res_trees),
         topo, out.2)

/-- The trial result `run_experiment` returns (or the exception it raises). -/
def run_experiment (topo : Graph) (failed_nodes : Finset Nat)
    (failed_links : Finset (Nat × Nat)) (server : Nat) (subscribers : Finset Nat)
    (trees : List Graph) : Option (List (String × ℚ)) :=
  (run_experiment_st topo failed_nodes failed_links server subscribers trees).1

/-- Embeds `build_mcast_trees` (lines 170-182): the heuristic returns a list
of trees and every tree is tagged with the configured heuristic name. -/
def build_mcast_trees (mcast_heuristic : String) (trees : List Graph) : List Graph :=
  trees.map (fun tree => { tree with heuristic := mcast_heuristic })

/-- Embeds `choose_subscribers` (lines 159-163).  `random.sample(hosts, n)`
raises `ValueError` (embedded as `none`) when n exceeds the population
size; otherwise it returns the drawn sample, embedded as the value the
seeded PRNG stream supplies for this trial. -/
def choose_subscribers (hosts : List Nat) (nsubscribers : Nat)
    (draw : Finset Nat) : Option (Finset Nat) :=
  if nsubscribers ≤ hosts.length then some draw else none

/-- Embeds `choose_server` (lines 165-168).  `random.choice` raises
`IndexError` (embedded as `none`) on an empty server list; otherwise it
returns the server the seeded PRNG stream supplies for this trial. -/
def choose_server (servers : List Nat) (draw : Nat) : Option Nat :=
  if servers = [] then none else some draw

/-- The random draws consumed by one trial: the sampled subscribers, the
chosen server, the failure instance produced by the failure model, and the
trees the topology provider returns for the heuristic.  A fixed pair of
seeds determines a fixed stream `Nat → TrialDraw` of these. -/
structure TrialDraw where
  subs : Finset Nat
  server : Nat
  failed_nodes : Finset Nat
  failed_links : Finset (Nat × Nat)
  rawTrees : List Graph
deriving DecidableEq

/-- The experiment state built by `SmartCampusNetworkxExperiment.__init__`. -/
structure Experiment where
  topo : Graph
  hosts : List Nat
  servers : List Nat
  nruns : Nat
  ntrees : Nat
  nsubscribers : Nat
  mcast_heuristic : String
deriving DecidableEq

/-- Embeds the setup in `__init__` (lines 28-73): the only validation
performed at setup is the topology-type dispatch at lines 52-55, which
raises `NotImplementedError` (embedded as `none`) for an unrecognized
type.  No subscriber-count or server-set validation happens here. -/
def initExperiment (topoType : String) (topo : Graph) (hosts servers : List Nat)
    (nruns ntrees nsubscribers : Nat) (mcast_heuristic : String) : Option Experiment :=
  if topoType = "networkx" then
    some { topo := topo, hosts := hosts, servers := servers, nruns := nruns,
           ntrees := ntrees, nsubscribers := nsubscribers,
           mcast_heuristic := mcast_heuristic }
  else none

/-- One iteration of the loop in `run_all_experiments` (lines 126-136):
sample subscribers and a server, draw a failure instance, build and tag the
trees, run the experiment.  Any exception (embedded `none`) propagates. -/
def run_trial (exp : Experiment) (d : TrialDraw) : Option (List (String × ℚ)) :=
  match choose_subscribers exp.hosts exp.nsubscribers d.subs with
  | none => none
  | some subs =>
    match choose_server exp.servers d.server with
    | none => none
    | some server =>
      let trees := build_mcast_trees exp.mcast_heuristic d.rawTrees
      run_experiment exp.topo d.failed_nodes d.failed_links server subs trees

/-- The loop of `run_all_experiments` from run index r with n runs left:
each completed trial appends one record (result merged with its run index)
to the results list; an exception aborts the loop, leaving the records
accumulated so far unwritten.  The boolean is true when the loop completed
and `output_results` wrote the file. -/
def run_all_from (exp : Experiment) (draws : Nat → TrialDraw) :
    Nat → Nat → List (List (String × ℚ) × Nat) → List (List (String × ℚ) × Nat) × Bool
  | _, 0, acc => (acc, true)
  | r, n + 1, acc =>
    match run_trial exp (draws r) with
    | none => (acc, false)
    | some result => run_all_from exp draws (r + 1) n (acc ++ [(result, r)])

/-- Embeds `run_all_experiments` (lines 123-137): the requested number of
trials starting from run 0 with an empty results list; returns the final
results list and whether the output file was written. -/
def run_all_experiments (exp : Experiment) (draws : Nat → TrialDraw) :
    List (List (String × ℚ) × Nat) × Bool :=
  run_all_from exp draws 0 exp.nruns []

/-- The path topology 0 — 1 — 2 — 3 from the scenarios of the spec. -/
def topoFull : Graph := ⟨{0, 1, 2, 3}, {(0, 1), (1, 2), (2, 3)}, "full"⟩

/-- A multicast tree spanning the whole path. -/
def treeA : Graph := ⟨{0, 1, 2, 3}, {(0, 1), (1, 2), (2, 3)}, "steiner"⟩

/-- A multicast tree covering only the edge 0 — 1. -/
def treeB : Graph := ⟨{0, 1}, {(0, 1)}, "closure"⟩

/-- A well-configured experiment over the path topology. -/
def expGood : Experiment :=
  ⟨topoFull, [1, 2, 3], [0], 2, 3, 2, "closure"⟩

/-- An experiment whose subscriber count (5) exceeds its host count (2). -/
def expBad : Experiment :=
  ⟨topoFull, [1, 2], [0], 1, 3, 5, "closure"⟩

/-- A trial draw with a nonempty tree list. -/
def drawGood : TrialDraw := ⟨{1, 3}, 0, ∅, ∅, [treeB]⟩

/-- A trial draw in which the heuristic produced zero trees. -/
def drawNoTrees : TrialDraw := ⟨{1, 3}, 0, ∅, ∅, []⟩

/-- Pruning removes exactly the failed nodes from the node set. -/
lemma prune_nodes (g : Graph) (fl : Finset (Nat × Nat)) (fn : Finset Nat) :
    (prune g fl fn).nodes = g.nodes \ fn := rfl

/-- Pruning leaves the heuristic tag of a graph unchanged. -/
lemma prune_heuristic (g : Graph) (fl : Finset (Nat × Nat)) (fn : Finset Nat) :
    (prune g fl fn).heuristic = g.heuristic := rfl

/-- Membership in the union the reachability loop accumulates: a node is in
the accumulator, or it is a subscriber reachable in at least one of the
pruned candidate graphs. -/
lemma get_reachability_loop_fst_mem (fn : Finset Nat) (fl : Finset (Nat × Nat))
    (sv : Nat) (subs : Finset Nat) (l : List Graph) (acc : Finset Nat) (x : Nat) :
    x ∈ (get_reachability_loop fn fl sv subs l acc).1 ↔
      x ∈ acc ∨ (x ∈ subs ∧ ∃ g ∈ l, x ∈ single_source_reachable (prune g fl fn) sv) := by
  induction l generalizing acc with
  | nil => simp [get_reachability_loop]
  | cons t ts ih =>
    simp only [get_reachability_loop]
    rw [ih]
    simp only [prune, Finset.mem_union, Finset.mem_inter, List.exists_mem_cons_iff]
    tauto

/-- The graphs the reachability loop hands back are exactly the input graphs,
each pruned of the failed links and nodes. -/
lemma get_reachability_loop_snd (fn : Finset Nat) (fl : Finset (Nat × Nat))
    (sv : Nat) (subs : Finset Nat) (l : List Graph) (acc : Finset Nat) :
    (get_reachability_loop fn fl sv subs l acc).2 = l.map (fun g => prune g fl fn) := by
  induction l generalizing acc with
  | nil => simp [get_reachability_loop]
  | cons t ts ih => simp [get_reachability_loop, ih, prune]

/-- Membership in the spec-side served set. -/
lemma servedSubscribers_mem (fn : Finset Nat) (fl : Finset (Nat × Nat)) (sv : Nat)
    (subs : Finset Nat) (l : List Graph) (x : Nat) :
    x ∈ servedSubscribers fn fl sv subs l ↔
      x ∈ subs ∧ ∃ g ∈ l, x ∈ single_source_reachable (prune g fl fn) sv := by
  simp [servedSubscribers, List.any_eq_true]

/-- The union the loop accumulates from an empty accumulator is the spec-side
served set. -/
lemma get_reachability_loop_served (fn : Finset Nat) (fl : Finset (Nat × Nat))
    (sv : Nat) (subs : Finset Nat) (l : List Graph) :
    (get_reachability_loop fn fl sv subs l ∅).1 = servedSubscribers fn fl sv subs l := by
  ext x
  rw [get_reachability_loop_fst_mem, servedSubscribers_mem]
  simp

/-- On a nonempty subscriber set, the value of the evaluator is the size of
the served union divided by the number of subscribers. -/
lemma get_reachability_eq_served (fn : Finset Nat) (fl : Finset (Nat × Nat)) (sv : Nat)
    (subs : Finset Nat) (l : List Graph) (h : subs.Nonempty) :
    get_reachability fn fl sv subs l =
      some (((servedSubscribers fn fl sv subs l).card : ℚ) / (subs.card : ℚ)) := by
  have hc : subs.card ≠ 0 := h.card_pos.ne'
  simp [get_reachability, get_reachability_st, get_reachability_loop_served, hc]

/-- The graphs `get_reachability` hands back are the pruned input graphs. -/
lemma get_reachability_st_snd (fn : Finset Nat) (fl : Finset (Nat × Nat)) (sv : Nat)
    (subs : Finset Nat) (l : List Graph) :
    (get_reachability_st fn fl sv subs l).2 = l.map (fun g => prune g fl fn) := by
  simp [get_reachability_st, get_reachability_loop_snd]

/-- Every graph is a subgraph of itself. -/
lemma SubgraphOf.refl (g : Graph) : SubgraphOf g g :=
  ⟨Finset.Subset.refl _, fun _ he => Or.inl he⟩

/-- Adjacency is monotone under the subgraph relation. -/
lemma adj_mono {g G : Graph} (h : SubgraphOf g G) {u v : Nat}
    (ha : adj g u v = true) : adj G u v = true := by
  unfold adj hasEdge at ha ⊢
  simp only [Bool.and_eq_true, Bool.or_eq_true, decide_eq_true_eq] at ha ⊢
  obtain ⟨⟨hu, hv⟩, he⟩ := ha
  refine ⟨⟨h.1 hu, h.1 hv⟩, ?_⟩
  rcases he with he | he
  · rcases h.2 _ he with h2 | h2
    · exact Or.inl h2
    · exact Or.inr h2
  · rcases h.2 _ he with h2 | h2
    · exact Or.inr h2
    · exact Or.inl h2

/-- One expansion step is monotone in both the graph and the reached set. -/
lemma reachStep_mono {g G : Graph} (h : SubgraphOf g G) {s s2 : Finset Nat}
    (hs : s ⊆ s2) : reachStep g s ⊆ reachStep G s2 := by
  intro x hx
  rcases Finset.mem_union.1 hx with hx | hx
  · exact Finset.mem_union_left _ (hs hx)
  · rcases Finset.mem_filter.1 hx with ⟨hxg, u, hu, hadj⟩
    refine Finset.mem_union_right _ (Finset.mem_filter.2 ⟨h.1 hxg, u, hs hu, adj_mono h hadj⟩)

/-- One expansion step only grows the reached set. -/
lemma subset_reachStep (g : Graph) (s : Finset Nat) : s ⊆ reachStep g s :=
  Finset.subset_union_left

/-- Iterated expansion is monotone in the graph and the starting set, for a
fixed amount of fuel. -/
lemma reachIter_mono {g G : Graph} (h : SubgraphOf g G) (n : Nat) {s s2 : Finset Nat}
    (hs : s ⊆ s2) : reachIter g n s ⊆ reachIter G n s2 := by
  induction n generalizing s s2 with
  | zero => exact hs
  | succ n ih => exact ih (reachStep_mono h hs)

/-- One extra unit of fuel only grows the reached set. -/
lemma reachIter_succ_subset (g : Graph) (n : Nat) (s : Finset Nat) :
    reachIter g n s ⊆ reachIter g (n + 1) s := by
  show reachIter g n s ⊆ reachIter g n (reachStep g s)
  exact reachIter_mono (SubgraphOf.refl g) n (subset_reachStep g s)

/-- Iterated expansion only grows with extra fuel. -/
lemma reachIter_fuel_mono (g : Graph) {m n : Nat} (hmn : m ≤ n) (s : Finset Nat) :
    reachIter g m s ⊆ reachIter g n s := by
  induction hmn with
  | refl => exact Finset.Subset.refl _
  | step _ ih => exact ih.trans (reachIter_succ_subset g _ s)

/-- Pruning the same failures from a subgraph and its supergraph preserves
the subgraph relation. -/
lemma subgraph_prune {g G : Graph} (h : SubgraphOf g G) (fl : Finset (Nat × Nat))
    (fn : Finset Nat) : SubgraphOf (prune g fl fn) (prune G fl fn) := by
  constructor
  · rw [prune_nodes, prune_nodes]
    exact Finset.sdiff_subset_sdiff h.1 (Finset.Subset.refl _)
  · intro e he
    simp only [prune, remove_nodes_from, remove_edges_from, Finset.mem_filter] at he ⊢
    obtain ⟨⟨heg, hl1, hl2⟩, hn1, hn2⟩ := he
    rcases h.2 _ heg with hG | hG
    · exact Or.inl ⟨⟨hG, hl1, hl2⟩, hn1, hn2⟩
    · refine Or.inr ⟨⟨hG, ?_, ?_⟩, hn2, hn1⟩
      · exact hl2
      · rw [Prod.swap_swap]; exact hl1

/-- Reachable sets are monotone under the subgraph relation. -/
lemma single_source_reachable_mono {g G : Graph} (h : SubgraphOf g G) (sv : Nat) :
    single_source_reachable g sv ⊆ single_source_reachable G sv := by
  unfold single_source_reachable
  by_cases hg : sv ∈ g.nodes
  · have hG : sv ∈ G.nodes := h.1 hg
    simp only [hg, hG, if_true]
    exact (reachIter_mono h _ (Finset.Subset.refl _)).trans
      (reachIter_fuel_mono G (Finset.card_le_card h.1) _)
  · simp [hg]

/-- If the server is one of the failed nodes, nothing is reachable from it in
any pruned graph. -/
lemma single_source_reachable_prune_failed (g : Graph) (fl : Finset (Nat × Nat))
    (fn : Finset Nat) (sv : Nat) (h : sv ∈ fn) :
    single_source_reachable (prune g fl fn) sv = ∅ := by
  unfold single_source_reachable
  rw [prune_nodes]
  simp [h]

/-- If the server is one of the failed nodes, the served set is empty. -/
lemma servedSubscribers_server_failed (fn : Finset Nat) (fl : Finset (Nat × Nat))
    (sv : Nat) (subs : Finset Nat) (l : List Graph) (h : sv ∈ fn) :
    servedSubscribers fn fl sv subs l = ∅ := by
  ext x
  rw [servedSubscribers_mem]
  simp [single_source_reachable_prune_failed, h]

/-- Every subscriber served by trees that are subgraphs of the topology is
also served by the oracle copy of the topology. -/
lemma servedSubscribers_subset_oracle (fn : Finset Nat) (fl : Finset (Nat × Nat))
    (sv : Nat) (subs : Finset Nat) (topo : Graph) (trees : List Graph)
    (hsub : ∀ tr ∈ trees, SubgraphOf tr topo) :
    servedSubscribers fn fl sv subs trees ⊆
      servedSubscribers fn fl sv subs [{ topo with heuristic := "oracle" }] := by
  intro x hx
  rw [servedSubscribers_mem] at hx ⊢
  obtain ⟨hxs, g, hg, hreach⟩ := hx
  refine ⟨hxs, { topo with heuristic := "oracle" }, by simp, ?_⟩
  have h1 : SubgraphOf g { topo with heuristic := "oracle" } :=
    ⟨(hsub g hg).1, (hsub g hg).2⟩
  exact single_source_reachable_mono (subgraph_prune h1 fl fn) sv hreach

/-- Full computation of `run_experiment_st` on a nonempty subscriber set and
a nonempty tree list: both scores are served-fraction values, the result
dict binds `"oracle"` and then the heuristic tag of the first tree, the
driver topology comes back unchanged, and the trees come back pruned. -/
lemma run_experiment_st_eq (topo : Graph) (fn : Finset Nat) (fl : Finset (Nat × Nat))
    (sv : Nat) (subs : Finset Nat) (t : Graph) (ts : List Graph) (h : subs.Nonempty) :
    run_experiment_st topo fn fl sv subs (t :: ts) =
      (some (dictInsert (dictInsert [] "oracle"
            (((servedSubscribers fn fl sv subs
                [{ topo with heuristic := "oracle" }]).card : ℚ) / (subs.card : ℚ)))
          t.heuristic
          (((servedSubscribers fn fl sv subs (t :: ts)).card : ℚ) / (subs.card : ℚ))),
       topo, (t :: ts).map (fun g => prune g fl fn)) := by
  have h1 : (get_reachability_st fn fl sv subs [{ topo with heuristic := "oracle" }]).1 =
      some (((servedSubscribers fn fl sv subs
        [{ topo with heuristic := "oracle" }]).card : ℚ) / (subs.card : ℚ)) :=
    get_reachability_eq_served fn fl sv subs _ h
  have h2 : (get_reachability_st fn fl sv subs (t :: ts)).1 =
      some (((servedSubscribers fn fl sv subs (t :: ts)).card : ℚ) / (subs.card : ℚ)) :=
    get_reachability_eq_served fn fl sv subs _ h
  have h3 := get_reachability_st_snd fn fl sv subs (t :: ts)
  simp only [run_experiment_st, h1, h2, h3, List.map_cons, prune_heuristic]

/-- Inserting into the empty dict appends the binding. -/
lemma dictInsert_nil (k : String) (v : ℚ) : dictInsert [] k v = [(k, v)] := by
  simp [dictInsert]

/-- Inserting a second value under an existing key overwrites it. -/
lemma dictInsert_overwrite (k : String) (v w : ℚ) :
    dictInsert [(k, v)] k w = [(k, w)] := by
  simp [dictInsert]

/-- Inserting under a fresh key appends the binding. -/
lemma dictInsert_fresh (k k2 : String) (v w : ℚ) (h : k2 ≠ k) :
    dictInsert [(k, v)] k2 w = [(k, v), (k2, w)] := by
  simp [dictInsert, h, Ne.symm h]

/-- A property of the values of a dict is preserved by insertion of a value
that satisfies it. -/
lemma dictInsert_forall (P : ℚ → Prop) (d : List (String × ℚ)) (k : String) (v : ℚ)
    (hd : ∀ p ∈ d, P p.2) (hv : P v) : ∀ p ∈ dictInsert d k v, P p.2 := by
  intro p hp
  unfold dictInsert at hp
  split at hp
  · rcases List.mem_map.1 hp with ⟨q, hq, he⟩
    by_cases hqk : q.1 = k
    · rw [if_pos hqk] at he
      rw [← he]
      exact hv
    · rw [if_neg hqk] at he
      rw [← he]
      exact hd q hq
  · rcases List.mem_append.1 hp with hp | hp
    · exact hd p hp
    · rw [List.mem_singleton.1 hp]
      exact hv

/-- Claim C1: on a nonempty subscriber set, `get_reachability` returns the
size of the union, over the candidate graphs, of the subscribers reachable
from the server in that graph after the failed links and nodes are removed,
divided by the number of subscribers; a subscriber counts as served exactly
when it is reachable in at least one candidate graph. -/
theorem get_reachability_is_union_fraction (fn : Finset Nat) (fl : Finset (Nat × Nat))
    (sv : Nat) (subs : Finset Nat) (topologies : List Graph) (h : subs.Nonempty) :
    get_reachability fn fl sv subs topologies =
      some (((servedSubscribers fn fl sv subs topologies).card : ℚ) / (subs.card : ℚ)) :=
  get_reachability_eq_served fn fl sv subs topologies h

/-- Witness for C1 at a concrete input. -/
theorem get_reachability_is_union_fraction_witness :
    ({1, 3} : Finset Nat).Nonempty ∧
    get_reachability ∅ ∅ 0 {1, 3} [treeA] =
      some (((servedSubscribers ∅ ∅ 0 {1, 3} [treeA]).card : ℚ) /
        ((({1, 3} : Finset Nat).card : ℚ))) :=
  ⟨by decide, get_reachability_is_union_fraction ∅ ∅ 0 {1, 3} [treeA] (by decide)⟩

/-- Claim C5: on an empty subscriber set the evaluator fails
(`ZeroDivisionError` in the source, embedded as `none`) instead of
returning a fraction. -/
theorem empty_subscribers_fails (fn : Finset Nat) (fl : Finset (Nat × Nat)) (sv : Nat)
    (topologies : List Graph) :
    get_reachability fn fl sv (∅ : Finset Nat) topologies = none := by
  simp [get_reachability, get_reachability_st]

/-- Claim C9: on a nonempty subscriber set, the fraction `get_reachability`
returns is invariant under permutation of the candidate-graph sequence. -/
theorem get_reachability_perm_invariant (fn : Finset Nat) (fl : Finset (Nat × Nat))
    (sv : Nat) (subs : Finset Nat) (l1 l2 : List Graph) (h : subs.Nonempty)
    (hp : l1.Perm l2) :
    get_reachability fn fl sv subs l1 = get_reachability fn fl sv subs l2 := by
  rw [get_reachability_eq_served fn fl sv subs l1 h,
    get_reachability_eq_served fn fl sv subs l2 h]
  have hs : servedSubscribers fn fl sv subs l1 = servedSubscribers fn fl sv subs l2 := by
    ext x
    rw [servedSubscribers_mem, servedSubscribers_mem]
    constructor <;> rintro ⟨hx, g, hg, hr⟩
    · exact ⟨hx, g, hp.mem_iff.1 hg, hr⟩
    · exact ⟨hx, g, hp.mem_iff.2 hg, hr⟩
  rw [hs]

/-- Witness for C9 at a concrete input: swapping two candidate graphs. -/
theorem get_reachability_perm_invariant_witness :
    ({1, 3} : Finset Nat).Nonempty ∧
    get_reachability ∅ ∅ 0 {1, 3} [treeA, treeB] =
      get_reachability ∅ ∅ 0 {1, 3} [treeB, treeA] :=
  ⟨by decide, get_reachability_perm_invariant ∅ ∅ 0 {1, 3} [treeA, treeB] [treeB, treeA]
    (by decide) (List.Perm.swap treeB treeA [])⟩

/-- Claim C2: when every tree is a subgraph of the full topology, the
reachability fraction `run_experiment` computes for the `"oracle"` key is
at least the fraction it computes for the heuristic of the trees, under the
same failures, server and subscribers. -/
theorem oracle_dominates_heuristic (topo : Graph) (fn : Finset Nat)
    (fl : Finset (Nat × Nat)) (sv : Nat) (subs : Finset Nat) (t : Graph)
    (ts : List Graph) (h : subs.Nonempty) (hsub : ∀ tr ∈ t :: ts, SubgraphOf tr topo) :
    ∃ d a b, run_experiment topo fn fl sv subs (t :: ts) = some d ∧
      d.lookup "oracle" = some a ∧ d.lookup t.heuristic = some b ∧ b ≤ a := by
  have he := run_experiment_st_eq topo fn fl sv subs t ts h
  set q1 := ((servedSubscribers fn fl sv subs
      [{ topo with heuristic := "oracle" }]).card : ℚ) / (subs.card : ℚ) with hq1
  set q2 := ((servedSubscribers fn fl sv subs (t :: ts)).card : ℚ) / (subs.card : ℚ)
    with hq2
  have hcard : (servedSubscribers fn fl sv subs (t :: ts)).card ≤
      (servedSubscribers fn fl sv subs [{ topo with heuristic := "oracle" }]).card :=
    Finset.card_le_card (servedSubscribers_subset_oracle fn fl sv subs topo (t :: ts) hsub)
  have hc : (0 : ℚ) < (subs.card : ℚ) := by exact_mod_cast h.card_pos
  have hle : q2 ≤ q1 := by
    rw [hq1, hq2]
    exact (div_le_div_iff_of_pos_right hc).mpr (by exact_mod_cast hcard)
  by_cases hk : t.heuristic = "oracle"
  · refine ⟨[("oracle", q2)], q2, q2, ?_, ?_, ?_, le_refl q2⟩
    · rw [run_experiment, he, dictInsert_nil, hk, dictInsert_overwrite]
    · simp [List.lookup]
    · rw [hk]
      simp [List.lookup]
  · have hbf : (t.heuristic == "oracle") = false := beq_eq_false_iff_ne.mpr hk
    refine ⟨[("oracle", q1), (t.heuristic, q2)], q1, q2, ?_, ?_, ?_, hle⟩
    · rw [run_experiment, he, dictInsert_nil, dictInsert_fresh _ _ _ _ hk]
    · simp [List.lookup]
    · simp [List.lookup, hbf]

/-- Witness for C2 at a concrete input: a tree spanning only the edge
0 — 1 inside the path topology. -/
theorem oracle_dominates_heuristic_witness :
    ({1, 3} : Finset Nat).Nonempty ∧
    (∃ d a b, run_experiment topoFull ∅ ∅ 0 {1, 3} [treeB] = some d ∧
      d.lookup "oracle" = some a ∧ d.lookup treeB.heuristic = some b ∧ b ≤ a) :=
  ⟨by decide, oracle_dominates_heuristic topoFull ∅ ∅ 0 {1, 3} treeB []
    (by decide) (by decide)⟩

/-- Claim C3: when the server is one of the failed nodes, every reachability
fraction in the trial result — the oracle entry and the heuristic entry —
equals 0. -/
theorem failed_server_zero_reachability (topo : Graph) (fn : Finset Nat)
    (fl : Finset (Nat × Nat)) (sv : Nat) (subs : Finset Nat) (t : Graph)
    (ts : List Graph) (h : subs.Nonempty) (hsv : sv ∈ fn) :
    ∃ d, run_experiment topo fn fl sv subs (t :: ts) = some d ∧ ∀ p ∈ d, p.2 = 0 := by
  have he := run_experiment_st_eq topo fn fl sv subs t ts h
  have h1 : ((servedSubscribers fn fl sv subs
      [{ topo with heuristic := "oracle" }]).card : ℚ) / (subs.card : ℚ) = 0 := by
    rw [servedSubscribers_server_failed fn fl sv subs _ hsv]
    simp
  have h2 : ((servedSubscribers fn fl sv subs (t :: ts)).card : ℚ) / (subs.card : ℚ) = 0 := by
    rw [servedSubscribers_server_failed fn fl sv subs _ hsv]
    simp
  rw [h1, h2] at he
  refine ⟨_, by rw [run_experiment, he], ?_⟩
  refine dictInsert_forall (fun q => q = 0) _ _ _ ?_ rfl
  refine dictInsert_forall (fun q => q = 0) _ _ _ ?_ rfl
  intro p hp
  simp at hp

/-- Witness for C3 at a concrete input: server 0 fails. -/
theorem failed_server_zero_reachability_witness :
    ({1, 3} : Finset Nat).Nonempty ∧ (0 : Nat) ∈ ({0} : Finset Nat) ∧
    (∃ d, run_experiment topoFull {0} ∅ 0 {1, 3} [treeB] = some d ∧ ∀ p ∈ d, p.2 = 0) :=
  ⟨by decide, by decide,
    failed_server_zero_reachability topoFull {0} ∅ 0 {1, 3} treeB [] (by decide) (by decide)⟩

/-- Claim C10: when the configured heuristic name is the reserved string
`"oracle"`, the trial result has the single key `"oracle"` bound to the
trees reachability, which overwrote the full-topology score inserted first
under the same key. -/
theorem oracle_heuristic_overwrites_key (topo : Graph) (fn : Finset Nat)
    (fl : Finset (Nat × Nat)) (sv : Nat) (subs : Finset Nat) (t : Graph)
    (ts : List Graph) (h : subs.Nonempty) :
    ∃ q, get_reachability fn fl sv subs (build_mcast_trees "oracle" (t :: ts)) = some q ∧
      run_experiment topo fn fl sv subs (build_mcast_trees "oracle" (t :: ts)) =
        some [("oracle", q)] := by
  have hb : build_mcast_trees "oracle" (t :: ts) =
      { t with heuristic := "oracle" } :: build_mcast_trees "oracle" ts := rfl
  rw [hb]
  have he := run_experiment_st_eq topo fn fl sv subs { t with heuristic := "oracle" }
    (build_mcast_trees "oracle" ts) h
  refine ⟨((servedSubscribers fn fl sv subs
      ({ t with heuristic := "oracle" } :: build_mcast_trees "oracle" ts)).card : ℚ) /
      (subs.card : ℚ),
    get_reachability_eq_served fn fl sv subs _ h, ?_⟩
  rw [run_experiment, he, dictInsert_nil]
  have hh : ({ t with heuristic := "oracle" } : Graph).heuristic = "oracle" := rfl
  rw [hh, dictInsert_overwrite]

/-- Witness for C10 at a concrete input. -/
theorem oracle_heuristic_overwrites_key_witness :
    ({1, 3} : Finset Nat).Nonempty ∧
    (∃ q, get_reachability ∅ ∅ 0 {1, 3} (build_mcast_trees "oracle" [treeB]) = some q ∧
      run_experiment topoFull ∅ ∅ 0 {1, 3} (build_mcast_trees "oracle" [treeB]) =
        some [("oracle", q)]) :=
  ⟨by decide, oracle_heuristic_overwrites_key topoFull ∅ ∅ 0 {1, 3} treeB [] (by decide)⟩

/-- Claim C7: `run_experiment` hands the driver topology back unchanged; the
failures are removed only from the per-trial oracle copy (discarded) and
from the tree objects, which come back pruned. -/
theorem run_experiment_preserves_driver_topology (topo : Graph) (fn : Finset Nat)
    (fl : Finset (Nat × Nat)) (sv : Nat) (subs : Finset Nat) (trees : List Graph)
    (h : subs.Nonempty) :
    (run_experiment_st topo fn fl sv subs trees).2.1 = topo ∧
    (run_experiment_st topo fn fl sv subs trees).2.2 =
      trees.map (fun g => prune g fl fn) := by
  cases trees with
  | nil =>
    have hc : subs.card ≠ 0 := h.card_pos.ne'
    constructor <;>
      simp [run_experiment_st, get_reachability_st, get_reachability_loop, hc]
  | cons t ts =>
    rw [run_experiment_st_eq topo fn fl sv subs t ts h]
    exact ⟨rfl, rfl⟩

/-- Witness for C7 at a concrete input. -/
theorem run_experiment_preserves_driver_topology_witness :
    ({1, 3} : Finset Nat).Nonempty ∧
    ((run_experiment_st topoFull {2} ∅ 0 {1, 3} [treeA]).2.1 = topoFull ∧
     (run_experiment_st topoFull {2} ∅ 0 {1, 3} [treeA]).2.2 =
       [treeA].map (fun g => prune g ∅ {2})) :=
  ⟨by decide, run_experiment_preserves_driver_topology topoFull {2} ∅ 0 {1, 3} [treeA]
    (by decide)⟩

/-- On a nonempty subscriber set and a nonempty tree list, `run_experiment`
returns a result rather than raising. -/
lemma run_experiment_some (topo : Graph) (fn : Finset Nat) (fl : Finset (Nat × Nat))
    (sv : Nat) (subs : Finset Nat) (t : Graph) (ts : List Graph) (h : subs.Nonempty) :
    ∃ d, run_experiment topo fn fl sv subs (t :: ts) = some d :=
  ⟨_, by rw [run_experiment, run_experiment_st_eq topo fn fl sv subs t ts h]⟩

/-- A trial completes when the configuration is valid, the drawn subscriber
set is nonempty and the heuristic produced at least one tree. -/
lemma run_trial_some (exp : Experiment) (d : TrialDraw)
    (h1 : exp.nsubscribers ≤ exp.hosts.length) (h2 : exp.servers ≠ [])
    (h3 : d.subs.Nonempty) (h4 : d.rawTrees ≠ []) :
    ∃ res, run_trial exp d = some res := by
  cases hr : d.rawTrees with
  | nil => exact absurd hr h4
  | cons t ts =>
    have hcs : choose_subscribers exp.hosts exp.nsubscribers d.subs = some d.subs := by
      unfold choose_subscribers
      rw [if_pos h1]
    have hsv : choose_server exp.servers d.server = some d.server := by
      unfold choose_server
      rw [if_neg h2]
    obtain ⟨res, hres⟩ := run_experiment_some exp.topo d.failed_nodes d.failed_links
      d.server d.subs { t with heuristic := exp.mcast_heuristic }
      (ts.map (fun tree => { tree with heuristic := exp.mcast_heuristic })) h3
    refine ⟨res, ?_⟩
    simp only [run_trial, hcs, hsv, hr, build_mcast_trees, List.map_cons]
    exact hres

/-- The loop of `run_all_experiments` completes and appends exactly one
record per run whenever every remaining trial has a nonempty subscriber
draw and at least one tree. -/
lemma run_all_from_complete (exp : Experiment) (draws : Nat → TrialDraw) :
    ∀ (n r : Nat) (acc : List (List (String × ℚ) × Nat)),
    exp.nsubscribers ≤ exp.hosts.length → exp.servers ≠ [] →
    (∀ i, i < n → (draws (r + i)).subs.Nonempty ∧ (draws (r + i)).rawTrees ≠ []) →
    ∃ l, run_all_from exp draws r n acc = (acc ++ l, true) ∧ l.length = n := by
  intro n
  induction n with
  | zero =>
    intro r acc _ _ _
    exact ⟨[], by simp [run_all_from], rfl⟩
  | succ n ih =>
    intro r acc h1 h2 h3
    obtain ⟨res, hres⟩ := run_trial_some exp (draws r) h1 h2
      (h3 0 (by omega)).1 (h3 0 (by omega)).2
    obtain ⟨l, hl, hlen⟩ := ih (r + 1) (acc ++ [(res, r)]) h1 h2 (fun i hi => by
      have := h3 (i + 1) (by omega)
      rwa [show r + (i + 1) = r + 1 + i by omega] at this)
    refine ⟨(res, r) :: l, ?_, by simp [hlen]⟩
    simp only [run_all_from, hres]
    rw [hl]
    simp

/-- The loop of `run_all_experiments` depends only on the draws it actually
consumes: two draw streams that agree on the consumed indices produce the
same results and the same completion status. -/
lemma run_all_from_congr (exp : Experiment) (draws1 draws2 : Nat → TrialDraw) :
    ∀ (n r : Nat) (acc : List (List (String × ℚ) × Nat)),
    (∀ i, r ≤ i → i < r + n → draws1 i = draws2 i) →
    run_all_from exp draws1 r n acc = run_all_from exp draws2 r n acc := by
  intro n
  induction n with
  | zero => intro r acc _; rfl
  | succ n ih =>
    intro r acc hagree
    have h0 : draws1 r = draws2 r := hagree r le_rfl (by omega)
    cases hres : run_trial exp (draws2 r) with
    | none => simp [run_all_from, h0, hres]
    | some res =>
      simp only [run_all_from, h0, hres]
      exact ih (r + 1) _ (fun i hi1 hi2 => hagree i (by omega) (by omega))

/-- Counterexample to claim C4 as stated: with one requested trial and a
heuristic that returns zero trees, the trial does not proceed to a
degenerate record — `trees[0]` raises `IndexError`, the run aborts with an
empty results list and nothing is written. -/
theorem zero_trees_aborts_run :
    run_all_experiments expGood (fun _ => drawNoTrees) = ([], false) := by
  decide

/-- Claim C4 as amended: every requested trial whose draw has a nonempty
subscriber sample and at least one tree contributes exactly one record, so
under a valid configuration a run whose trials all have at least one tree
completes with exactly nruns records. -/
theorem every_trial_with_trees_yields_one_record (exp : Experiment)
    (draws : Nat → TrialDraw) (h1 : exp.nsubscribers ≤ exp.hosts.length)
    (h2 : exp.servers ≠ [])
    (h3 : ∀ r, r < exp.nruns → (draws r).subs.Nonempty ∧ (draws r).rawTrees ≠ []) :
    ∃ l, run_all_experiments exp draws = (l, true) ∧ l.length = exp.nruns := by
  obtain ⟨l, hl, hlen⟩ := run_all_from_complete exp draws exp.nruns 0 [] h1 h2
    (fun i hi => by
      rw [Nat.zero_add]
      exact h3 i hi)
  exact ⟨l, by simpa using hl, hlen⟩

/-- Witness for the amended C4 at a concrete input: two trials, one tree
each, two records. -/
theorem every_trial_with_trees_yields_one_record_witness :
    expGood.nsubscribers ≤ expGood.hosts.length ∧
    (∃ l, run_all_experiments expGood (fun _ => drawGood) = (l, true) ∧
      l.length = expGood.nruns) :=
  ⟨by decide, every_trial_with_trees_yields_one_record expGood (fun _ => drawGood)
    (by decide) (by decide)
    (fun r _ => show drawGood.subs.Nonempty ∧ drawGood.rawTrees ≠ [] from
      ⟨by decide, by decide⟩)⟩

/-- Counterexample to claim C6 as stated: setup succeeds (no error is
raised at setup) on a configuration whose subscriber count 5 exceeds its
host count 2; the error only arises once the first trial samples
subscribers. -/
theorem setup_accepts_oversized_subscriber_count :
    initExperiment "networkx" topoFull [1, 2] [0] 1 3 5 "closure" = some expBad ∧
    run_all_experiments expBad (fun _ => drawGood) = ([], false) := by
  constructor
  · rfl
  · decide

/-- Claim C6 as amended: when the subscriber count exceeds the host count or
the server set is empty, the error is raised during the first trial (at
subscriber or server sampling), before any result is recorded: the results
list stays empty and nothing is written to the output file. -/
theorem invalid_config_aborts_first_trial (exp : Experiment) (draws : Nat → TrialDraw)
    (h0 : 0 < exp.nruns)
    (h : exp.hosts.length < exp.nsubscribers ∨ exp.servers = []) :
    run_all_experiments exp draws = ([], false) := by
  obtain ⟨n, hn⟩ : ∃ n, exp.nruns = n + 1 := ⟨exp.nruns - 1, by omega⟩
  have htr : run_trial exp (draws 0) = none := by
    rcases h with h | h
    · have hcs : choose_subscribers exp.hosts exp.nsubscribers (draws 0).subs = none := by
        unfold choose_subscribers
        rw [if_neg (by omega)]
      simp [run_trial, hcs]
    · have hsv : choose_server exp.servers (draws 0).server = none := by
        unfold choose_server
        rw [if_pos h]
      cases hcs : choose_subscribers exp.hosts exp.nsubscribers (draws 0).subs with
      | none => simp [run_trial, hcs]
      | some s => simp [run_trial, hcs, hsv]
  show run_all_from exp draws 0 exp.nruns [] = ([], false)
  rw [hn]
  simp [run_all_from, htr]

/-- Witness for the amended C6 at a concrete input. -/
theorem invalid_config_aborts_first_trial_witness :
    0 < expBad.nruns ∧ expBad.hosts.length < expBad.nsubscribers ∧
    run_all_experiments expBad (fun _ => drawNoTrees) = ([], false) :=
  ⟨by decide, by decide,
    invalid_config_aborts_first_trial expBad (fun _ => drawNoTrees) (by decide)
      (Or.inl (by decide))⟩

/-- Claim C8: an entire experiment run is a deterministic function of the
per-trial draw stream — two runs of the same configuration whose streams
agree on the consumed trial indices (as two runs with the same two seeds
do, since each Python PRNG is a deterministic function of its seed)
produce identical results lists and completion status. -/
theorem run_all_experiments_deterministic (exp : Experiment)
    (draws1 draws2 : Nat → TrialDraw)
    (h : ∀ r, r < exp.nruns → draws1 r = draws2 r) :
    run_all_experiments exp draws1 = run_all_experiments exp draws2 :=
  run_all_from_congr exp draws1 draws2 exp.nruns 0 []
    (fun i _ hi => h i (by simpa using hi))

/-- Witness for C8 at a concrete input: a second stream that differs only
beyond the consumed indices yields the identical run. -/
theorem run_all_experiments_deterministic_witness :
    (∀ r, r < expGood.nruns → (fun _ => drawGood) r =
      (fun i => if i < 5 then drawGood else drawNoTrees) r) ∧
    run_all_experiments expGood (fun _ => drawGood) =
      run_all_experiments expGood (fun i => if i < 5 then drawGood else drawNoTrees) :=
  ⟨fun r hr => by
      have : r < 5 := by
        have h2 : expGood.nruns = 2 := rfl
        omega
      simp [this],
    run_all_experiments_deterministic expGood (fun _ => drawGood)
      (fun i => if i < 5 then drawGood else drawNoTrees)
      (fun r hr => by
        have : r < 5 := by
          have h2 : expGood.nruns = 2 := rfl
          omega
        simp [this])⟩
